import Mathlib

/-!
Verification development for the vessel repository, a desktop container
management UI. The definitions below are shallow embeddings of the list
controllers, selection logic, grouping, column resize bookkeeping and the
terminal session logic found in the React components; the theorems settle
the behavioural claims made about them.
-/

/- ## String primitives mirroring the JavaScript operations used in the code -/

/-- JS whitespace test restricted to the ASCII whitespace characters that can
actually occur in the inputs handled by the components. -/
def jsWhitespaceChar (c : Char) : Bool :=
  c == ' ' || c == '\t' || c == '\n' || c == '\r'

/-- JS String.prototype.trim, removing leading and trailing whitespace. -/
def jsTrim (s : String) : String :=
  String.mk (((s.data.dropWhile jsWhitespaceChar).reverse.dropWhile jsWhitespaceChar).reverse)

/-- JS String.prototype.toLowerCase, character by character. -/
def strToLower (s : String) : String :=
  String.mk (s.data.map Char.toLower)

/-- JS String.prototype.includes: substring containment. -/
def strIncludes (s pat : String) : Bool :=
  decide (pat.data <:+: s.data)

/-- JS String.prototype.startsWith. -/
def strStartsWith (s pre : String) : Bool :=
  decide (pre.data <+: s.data)

/-- JS String.prototype.slice with a non-negative start index. -/
def strDropLeft (s : String) (n : Nat) : String :=
  String.mk (s.data.drop n)

/-- Character-list comparison underlying the model of localeCompare-based
sorting: lexicographic comparison by character order. -/
def charListLe : List Char → List Char → Bool
  | [], _ => true
  | _ :: _, [] => false
  | a :: as, b :: bs =>
    if a < b then true
    else if b < a then false
    else charListLe as bs

/-- Model of the ordering induced by a.localeCompare(b) as used by the sort
calls in the code: a comes no later than b. -/
def localeLe (a b : String) : Bool :=
  charListLe a.data b.data

theorem charListLe_cons {a b : Char} {as bs : List Char} :
    charListLe (a :: as) (b :: bs) = true ↔ a < b ∨ (a = b ∧ charListLe as bs = true) := by
  simp only [charListLe]
  split_ifs with h1 h2
  · simp [h1]
  · have hne : a ≠ b := fun h => absurd (h ▸ h2) (lt_irrefl a)
    simp [h1, hne]
  · have heq : a = b := le_antisymm (not_lt.mp h2) (not_lt.mp h1)
    simp [h1, heq]

theorem charListLe_refl : ∀ l : List Char, charListLe l l = true := by
  intro l
  induction l with
  | nil => rfl
  | cons a as ih => exact charListLe_cons.mpr (Or.inr ⟨rfl, ih⟩)

theorem charListLe_total : ∀ as bs : List Char, charListLe as bs = true ∨ charListLe bs as = true := by
  intro as
  induction as with
  | nil => intro bs; left; rfl
  | cons a as ih =>
    intro bs
    cases bs with
    | nil => right; rfl
    | cons b bs =>
      rcases lt_trichotomy a b with h | h | h
      · left; exact charListLe_cons.mpr (Or.inl h)
      · subst h
        rcases ih bs with h | h
        · left; exact charListLe_cons.mpr (Or.inr ⟨rfl, h⟩)
        · right; exact charListLe_cons.mpr (Or.inr ⟨rfl, h⟩)
      · right; exact charListLe_cons.mpr (Or.inl h)

theorem charListLe_trans : ∀ as bs cs : List Char,
    charListLe as bs = true → charListLe bs cs = true → charListLe as cs = true := by
  intro as
  induction as with
  | nil => intro bs cs _ _; rfl
  | cons a as ih =>
    intro bs cs h1 h2
    cases bs with
    | nil => simp [charListLe] at h1
    | cons b bs =>
      cases cs with
      | nil => simp [charListLe] at h2
      | cons c cs =>
        rcases charListLe_cons.mp h1 with hab | ⟨hab, htl1⟩ <;>
          rcases charListLe_cons.mp h2 with hbc | ⟨hbc, htl2⟩
        · exact charListLe_cons.mpr (Or.inl (lt_trans hab hbc))
        · exact charListLe_cons.mpr (Or.inl (hbc ▸ hab))
        · exact charListLe_cons.mpr (Or.inl (hab ▸ hbc))
        · exact charListLe_cons.mpr (Or.inr ⟨hab.trans hbc, ih bs cs htl1 htl2⟩)

theorem charListLe_antisymm : ∀ as bs : List Char,
    charListLe as bs = true → charListLe bs as = true → as = bs := by
  intro as
  induction as with
  | nil =>
    intro bs _ h2
    cases bs with
    | nil => rfl
    | cons b bs => simp [charListLe] at h2
  | cons a as ih =>
    intro bs h1 h2
    cases bs with
    | nil => simp [charListLe] at h1
    | cons b bs =>
      rcases charListLe_cons.mp h1 with hab | ⟨hab, htl1⟩ <;>
        rcases charListLe_cons.mp h2 with hba | ⟨hba, htl2⟩
      · exact absurd hba (lt_asymm hab)
      · exact absurd hab (hba ▸ lt_irrefl b)
      · exact absurd hba (hab ▸ lt_irrefl a)
      · rw [hab, ih bs htl1 htl2]

theorem string_data_inj {a b : String} (h : a.data = b.data) : a = b := by
  cases a
  cases b
  exact congrArg String.mk h

theorem localeLe_refl (a : String) : localeLe a a = true :=
  charListLe_refl a.data

theorem localeLe_total (a b : String) : localeLe a b = true ∨ localeLe b a = true :=
  charListLe_total a.data b.data

theorem localeLe_trans {a b c : String} (h1 : localeLe a b = true) (h2 : localeLe b c = true) :
    localeLe a c = true :=
  charListLe_trans a.data b.data c.data h1 h2

theorem localeLe_antisymm {a b : String} (h1 : localeLe a b = true) (h2 : localeLe b a = true) :
    a = b :=
  string_data_inj (charListLe_antisymm a.data b.data h1 h2)

/- ## Data model (from src/src/types/docker.ts and the fields the components use) -/

/-- Port description of a container, from the PortInfo interface. -/
structure PortInfo where
  private_port : Int
  public_port : Option Int
  type : String
deriving DecidableEq, Repr

/-- Container record, from the ContainerInfo interface plus the optional
project and service grouping keys read by ContainerList. -/
structure ContainerInfo where
  id : String
  name : String
  image : String
  status : String
  state : String
  created : Int
  ports : List PortInfo
  project : Option String
  service : Option String
deriving DecidableEq, Repr

/-- Derived container group, from the ContainerProject shape built by
groupContainersByProject in ContainerList. -/
structure ContainerProject where
  name : String
  containers : List ContainerInfo
  isExpanded : Bool
  isSelected : Bool
deriving DecidableEq, Repr

/-- Image record, from the ImageInfo interface (fields used by ImageList). -/
structure ImageInfo where
  id : String
  repo_tags : List String
  created : Int
  size : Int
  virtual_size : Int
deriving DecidableEq, Repr

/-- Volume record, from the VolumeInfo interface (fields used by VolumeList). -/
structure VolumeInfo where
  name : String
  driver : String
  mountpoint : String
  created_at : Option String
  scope : String
deriving DecidableEq, Repr

/-- Network record, from the NetworkInfo interface (fields used by NetworkList). -/
structure NetworkInfo where
  id : String
  name : String
  driver : String
  scope : String
  internal : Bool
  attachable : Bool
deriving DecidableEq, Repr

/- ## Generic sorted-permutation reasoning for the localeCompare-based sorts -/

theorem eq_of_perm_of_sorted_key {α : Type} (key : α → String) :
    ∀ {l₁ l₂ : List α}, l₁.Perm l₂ →
      l₁.Pairwise (fun a b => localeLe (key a) (key b) = true) →
      l₂.Pairwise (fun a b => localeLe (key a) (key b) = true) →
      (l₁.map key).Nodup → l₁ = l₂ := by
  intro l₁
  induction l₁ with
  | nil =>
    intro l₂ h _ _ _
    exact (h.symm.eq_nil).symm
  | cons a t₁ ih =>
    intro l₂ h hs₁ hs₂ hnd
    cases l₂ with
    | nil => exact absurd h.eq_nil (by simp)
    | cons b t₂ =>
      have hab : a = b := by
        have hbmem : b ∈ a :: t₁ := h.mem_iff.mpr (List.mem_cons_self b t₂)
        rcases List.mem_cons.mp hbmem with hb | hb
        · exact hb.symm
        · have hamem : a ∈ b :: t₂ := h.mem_iff.mp (List.mem_cons_self a t₁)
          have h1 : localeLe (key a) (key b) = true := (List.pairwise_cons.mp hs₁).1 b hb
          have h2 : localeLe (key b) (key a) = true := by
            rcases List.mem_cons.mp hamem with ha | ha
            · rw [ha]; exact localeLe_refl _
            · exact (List.pairwise_cons.mp hs₂).1 a ha
          have hk : key a = key b := localeLe_antisymm h1 h2
          have hmem : key a ∈ t₁.map key := by
            rw [hk]; exact List.mem_map_of_mem key hb
          exact absurd hmem (List.nodup_cons.mp hnd).1
      subst hab
      have htl := ih h.cons_inv (List.pairwise_cons.mp hs₁).2 (List.pairwise_cons.mp hs₂).2
        (List.nodup_cons.mp hnd).2
      rw [htl]

theorem insertionSort_key_eq {α : Type} (key : α → String) (r : α → α → Prop) [DecidableRel r]
    [IsTotal α r] [IsTrans α r]
    (hr : ∀ a b, r a b ↔ localeLe (key a) (key b) = true)
    {l₁ l₂ : List α} (h : l₁.Perm l₂) (hn : (l₁.map key).Nodup) :
    List.insertionSort r l₁ = List.insertionSort r l₂ := by
  apply eq_of_perm_of_sorted_key key
  · exact (List.perm_insertionSort r l₁).trans (h.trans (List.perm_insertionSort r l₂).symm)
  · exact List.Pairwise.imp (fun hab => (hr _ _).mp hab) (List.sorted_insertionSort r l₁)
  · exact List.Pairwise.imp (fun hab => (hr _ _).mp hab) (List.sorted_insertionSort r l₂)
  · exact (((List.perm_insertionSort r l₁).map key).nodup_iff).mpr hn

/- ## Grouping containers by project (ContainerList.groupContainersByProject) -/

/-- One step of the Map-building forEach in groupContainersByProject: record a
new project key on first occurrence, in insertion order. -/
def projectNamesStep (acc : List String) (c : ContainerInfo) : List String :=
  match c.project with
  | some p => if p ∈ acc then acc else acc ++ [p]
  | none => acc

/-- Project keys of a container collection in first-occurrence order, as the
insertion order of the Map built by groupContainersByProject. -/
def projectNames (containers : List ContainerInfo) : List String :=
  containers.foldl projectNamesStep []

/-- Bucket of one project key: the containers carrying that project, in
collection order, as pushed into the Map by groupContainersByProject. -/
def projectMembers (containers : List ContainerInfo) (projectName : String) : List ContainerInfo :=
  containers.filter (fun c => c.project == some projectName)

/-- Ordering used by the sort comparator a.name.localeCompare(b.name) on
containers inside a project group. -/
def containerNameLe (a b : ContainerInfo) : Prop := localeLe a.name b.name = true

/-- Ordering used by the sort comparator a.name.localeCompare(b.name) on the
project groups themselves. -/
def projectLe (a b : ContainerProject) : Prop := localeLe a.name b.name = true

instance : DecidableRel containerNameLe := fun _ _ => instDecidableEqBool _ _

instance : DecidableRel projectLe := fun _ _ => instDecidableEqBool _ _

instance : IsTotal ContainerInfo containerNameLe := ⟨fun a b => localeLe_total a.name b.name⟩

instance : IsTrans ContainerInfo containerNameLe := ⟨fun _ _ _ h1 h2 => localeLe_trans h1 h2⟩

instance : IsTotal ContainerProject projectLe := ⟨fun a b => localeLe_total a.name b.name⟩

instance : IsTrans ContainerProject projectLe := ⟨fun _ _ _ h1 h2 => localeLe_trans h1 h2⟩

theorem containerNameLe_iff (a b : ContainerInfo) :
    containerNameLe a b ↔ localeLe a.name b.name = true := Iff.rfl

theorem projectLe_iff (a b : ContainerProject) :
    projectLe a b ↔ localeLe a.name b.name = true := Iff.rfl

/-- ContainerList.groupContainersByProject: partition the containers that have
a project key into groups in first-occurrence key order, sort each group by
container name, mark every group expanded and unselected, and sort the groups
by name. Containers without a project key appear in no group. -/
def groupContainersByProject (containers : List ContainerInfo) : List ContainerProject :=
  List.insertionSort projectLe
    ((projectNames containers).map (fun projectName =>
      { name := projectName
        containers := List.insertionSort containerNameLe (projectMembers containers projectName)
        isExpanded := true
        isSelected := false }))

theorem mem_foldl_projectNamesStep :
    ∀ (cs : List ContainerInfo) (acc : List String) (p : String),
      p ∈ cs.foldl projectNamesStep acc ↔ p ∈ acc ∨ ∃ c ∈ cs, c.project = some p := by
  intro cs
  induction cs with
  | nil => intro acc p; simp
  | cons c cs ih =>
    intro acc p
    rw [List.foldl_cons, ih]
    cases hc : c.project with
    | none =>
      simp only [projectNamesStep, hc]
      constructor
      · rintro (h | ⟨d, hd, hdp⟩)
        · exact Or.inl h
        · exact Or.inr ⟨d, List.mem_cons_of_mem c hd, hdp⟩
      · rintro (h | ⟨d, hd, hdp⟩)
        · exact Or.inl h
        · rcases List.mem_cons.mp hd with rfl | hd2
          · rw [hc] at hdp; cases hdp
          · exact Or.inr ⟨d, hd2, hdp⟩
    | some q =>
      simp only [projectNamesStep, hc]
      by_cases hq : q ∈ acc
      · rw [if_pos hq]
        constructor
        · rintro (h | ⟨d, hd, hdp⟩)
          · exact Or.inl h
          · exact Or.inr ⟨d, List.mem_cons_of_mem c hd, hdp⟩
        · rintro (h | ⟨d, hd, hdp⟩)
          · exact Or.inl h
          · rcases List.mem_cons.mp hd with rfl | hd2
            · rw [hc] at hdp
              rw [Option.some.inj hdp] at hq
              exact Or.inl hq
            · exact Or.inr ⟨d, hd2, hdp⟩
      · rw [if_neg hq]
        constructor
        · rintro (h | ⟨d, hd, hdp⟩)
          · rcases List.mem_append.mp h with h2 | h2
            · exact Or.inl h2
            · have hpq : p = q := by simpa using h2
              exact Or.inr ⟨c, List.mem_cons_self c cs, by rw [hc, hpq]⟩
          · exact Or.inr ⟨d, List.mem_cons_of_mem c hd, hdp⟩
        · rintro (h | ⟨d, hd, hdp⟩)
          · exact Or.inl (List.mem_append.mpr (Or.inl h))
          · rcases List.mem_cons.mp hd with rfl | hd2
            · rw [hc] at hdp
              rw [Option.some.inj hdp]
              exact Or.inl (List.mem_append.mpr (Or.inr (by simp)))
            · exact Or.inr ⟨d, hd2, hdp⟩

theorem nodup_foldl_projectNamesStep :
    ∀ (cs : List ContainerInfo) (acc : List String), acc.Nodup →
      (cs.foldl projectNamesStep acc).Nodup := by
  intro cs
  induction cs with
  | nil => intro acc h; simpa using h
  | cons c cs ih =>
    intro acc h
    rw [List.foldl_cons]
    apply ih
    cases hc : c.project with
    | none => simpa [projectNamesStep, hc] using h
    | some q =>
      simp only [projectNamesStep, hc]
      by_cases hq : q ∈ acc
      · rw [if_pos hq]; exact h
      · rw [if_neg hq]
        exact List.Nodup.append h (List.nodup_singleton q) (by simpa using hq)

theorem mem_projectNames {cs : List ContainerInfo} {p : String} :
    p ∈ projectNames cs ↔ ∃ c ∈ cs, c.project = some p := by
  unfold projectNames
  rw [mem_foldl_projectNamesStep]
  simp

theorem nodup_projectNames (cs : List ContainerInfo) : (projectNames cs).Nodup :=
  nodup_foldl_projectNamesStep cs [] List.nodup_nil

theorem projectNames_perm {xs ys : List ContainerInfo} (h : xs.Perm ys) :
    (projectNames xs).Perm (projectNames ys) := by
  rw [List.perm_ext_iff_of_nodup (nodup_projectNames xs) (nodup_projectNames ys)]
  intro p
  rw [mem_projectNames, mem_projectNames]
  constructor <;> rintro ⟨c, hc, hcp⟩
  · exact ⟨c, h.mem_iff.mp hc, hcp⟩
  · exact ⟨c, h.mem_iff.mpr hc, hcp⟩

theorem mem_groupContainersByProject {cs : List ContainerInfo} {G : ContainerProject} :
    G ∈ groupContainersByProject cs ↔
      ∃ p ∈ projectNames cs,
        G = { name := p
              containers := List.insertionSort containerNameLe (projectMembers cs p)
              isExpanded := true
              isSelected := false } := by
  unfold groupContainersByProject
  rw [(List.perm_insertionSort projectLe _).mem_iff, List.mem_map]
  constructor
  · rintro ⟨p, hp, rfl⟩; exact ⟨p, hp, rfl⟩
  · rintro ⟨p, hp, rfl⟩; exact ⟨p, hp, rfl⟩

/- ## List controllers: load semantics (loadContainers, loadNetworks, loadVolumes, loadImages) -/

/-- Resource list controller state shared by the network, volume and image
views: the fetched collection plus the error banner. -/
structure ResourceListState (α : Type) where
  collection : List α
  error : Option String
deriving DecidableEq, Repr

/-- Net effect of one completed load call of the generic list controllers
(loadNetworks, loadVolumes, loadImages): on success the collection is replaced
wholesale and the error is cleared; on failure the error message is recorded
and the collection is left untouched. -/
def applyLoadResult {α : Type} (s : ResourceListState α) (result : Except String (List α)) :
    ResourceListState α :=
  match result with
  | Except.ok items => { collection := items, error := none }
  | Except.error e => { collection := s.collection, error := some e }

/-- ContainerList state: the flat collection, the derived project groups and
the error banner. -/
structure ContainerListState where
  containers : List ContainerInfo
  projects : List ContainerProject
  error : Option String
deriving DecidableEq, Repr

/-- Net effect of one completed loadContainers call: on success the flat
collection is replaced, the project groups are recomputed from it via
groupContainersByProject, and the error is cleared; on failure the error is
recorded and both collections are left untouched. -/
def applyLoadContainers (s : ContainerListState) (result : Except String (List ContainerInfo)) :
    ContainerListState :=
  match result with
  | Except.ok items =>
    { containers := items, projects := groupContainersByProject items, error := none }
  | Except.error e =>
    { containers := s.containers, projects := s.projects, error := some e }

/-- ContainerList.toggleProjectExpansion: flip the isExpanded flag of the
project group with the given name, leaving other groups unchanged. -/
def toggleProjectExpansion (s : ContainerListState) (projectName : String) : ContainerListState :=
  { s with
    projects := s.projects.map (fun project =>
      if project.name == projectName then { project with isExpanded := !project.isExpanded }
      else project) }

/- ## Search filters of the four list views -/

/-- ContainerList search predicate: case-insensitive substring match against
name, image and id. -/
def containerMatchesSearch (searchTerm : String) (c : ContainerInfo) : Bool :=
  strIncludes (strToLower c.name) (strToLower searchTerm) ||
  strIncludes (strToLower c.image) (strToLower searchTerm) ||
  strIncludes (strToLower c.id) (strToLower searchTerm)

/-- ContainerList row filter: the search match combined with the optional
only-show-running toggle. -/
def containerPassesFilters (searchTerm : String) (showOnlyRunning : Bool) (c : ContainerInfo) :
    Bool :=
  containerMatchesSearch searchTerm c &&
  (!showOnlyRunning || (strToLower c.state == "running"))

/-- ContainerList.filteredProjects: restrict every project group to its rows
passing the filters and drop the groups left empty. -/
def filteredProjects (projects : List ContainerProject) (searchTerm : String)
    (showOnlyRunning : Bool) : List ContainerProject :=
  (projects.map (fun project =>
    { project with
      containers := project.containers.filter (containerPassesFilters searchTerm showOnlyRunning) }))
    |>.filter (fun project => 0 < project.containers.length)

/-- ContainerList.individualContainers: the containers without a project key
that pass the filters. -/
def individualContainers (containers : List ContainerInfo) (searchTerm : String)
    (showOnlyRunning : Bool) : List ContainerInfo :=
  containers.filter (fun c =>
    c.project.isNone && containerPassesFilters searchTerm showOnlyRunning c)

/-- VolumeList search predicate: case-insensitive substring match against the
volume name. -/
def volumeMatchesSearch (searchTerm : String) (v : VolumeInfo) : Bool :=
  strIncludes (strToLower v.name) (strToLower searchTerm)

/-- VolumeList.filteredVolumes. -/
def filteredVolumes (volumes : List VolumeInfo) (searchTerm : String) : List VolumeInfo :=
  volumes.filter (volumeMatchesSearch searchTerm)

/-- NetworkList search predicate: case-insensitive substring match against the
network name and id. -/
def networkMatchesSearch (searchTerm : String) (n : NetworkInfo) : Bool :=
  strIncludes (strToLower n.name) (strToLower searchTerm) ||
  strIncludes (strToLower n.id) (strToLower searchTerm)

/-- NetworkList.filteredNetworks. -/
def filteredNetworks (networks : List NetworkInfo) (searchTerm : String) : List NetworkInfo :=
  networks.filter (networkMatchesSearch searchTerm)

/-- ImageList body: the table maps over the full images collection; the search
input of ImageList has no value binding and no change handler, so the rendered
row set ignores the search text entirely. -/
def imageListRendered (images : List ImageInfo) (searchText : String) : List ImageInfo :=
  images

/-- Specification-side definition, for comparison only, following the words of
the spec: images are filtered by a case-insensitive substring match against
the resolved tag or the id. -/
def imageMatchesSpec (searchTerm : String) (i : ImageInfo) : Bool :=
  strIncludes (strToLower (match i.repo_tags with
    | [] => "<none>:<none>"
    | tg :: _ => tg)) (strToLower searchTerm) ||
  strIncludes (strToLower i.id) (strToLower searchTerm)

/-- Specification-side image filter, for comparison with imageListRendered. -/
def imageFilteredSpec (images : List ImageInfo) (searchTerm : String) : List ImageInfo :=
  images.filter (imageMatchesSpec searchTerm)

/- ## Header select-all checkboxes -/

/-- VolumeList header checkbox state: checked when the selection is non-empty
and its size equals the filtered row count. The element never sets the
indeterminate property. -/
def volumeHeaderChecked (selectedVolumes : Finset String) (volumes : List VolumeInfo)
    (searchTerm : String) : Bool :=
  decide (0 < selectedVolumes.card) &&
  decide (selectedVolumes.card = (filteredVolumes volumes searchTerm).length)

/-- ContainerList.totalFilteredContainers: the reduce over the filtered project
groups plus the individual container count. -/
def totalFilteredContainers (projects : List ContainerProject)
    (containers : List ContainerInfo) (searchTerm : String) (showOnlyRunning : Bool) : Nat :=
  ((filteredProjects projects searchTerm showOnlyRunning).foldl
    (fun sum project => sum + project.containers.length) 0) +
  (individualContainers containers searchTerm showOnlyRunning).length

/-- ContainerList header checkbox state: checked when the selection is
non-empty and its size equals totalFilteredContainers. The element never sets
the indeterminate property. -/
def containerHeaderChecked (selectedContainers : Finset String)
    (projects : List ContainerProject) (containers : List ContainerInfo)
    (searchTerm : String) (showOnlyRunning : Bool) : Bool :=
  decide (0 < selectedContainers.card) &&
  decide (selectedContainers.card =
    totalFilteredContainers projects containers searchTerm showOnlyRunning)

/-- Id list built by the ContainerList header checkbox onChange handler when it
selects everything: the ids of the filtered project rows followed by the ids
of the filtered individual rows. -/
def containerSelectAllIds (projects : List ContainerProject)
    (containers : List ContainerInfo) (searchTerm : String) (showOnlyRunning : Bool) :
    List String :=
  ((filteredProjects projects searchTerm showOnlyRunning).flatMap
    (fun project => project.containers.map (fun c => c.id))) ++
  (individualContainers containers searchTerm showOnlyRunning).map (fun c => c.id)

/- ## Reserved network protection (NetworkList) -/

/-- Reserved system network names that must never be removed. -/
def reservedNetworkNames : List String := ["bridge", "host", "none"]

/-- Outcome of NetworkRow.handleRemove (confirm-dialog variant). -/
inductive NetworkRemoveOutcome where
  | rejected (message : String)
  | cancelled
  | bridgeCall (commandName : String) (networkId : String)
deriving DecidableEq, Repr

/-- NetworkRow.handleRemove: reject reserved system networks with a local
message before asking for confirmation; otherwise honour the confirmation
answer and only then issue the remove_network bridge call. -/
def networkHandleRemove (network : NetworkInfo) (confirmed : Bool) : NetworkRemoveOutcome :=
  if network.name ∈ reservedNetworkNames then
    NetworkRemoveOutcome.rejected "Cannot remove system networks (bridge, host, none)"
  else if !confirmed then NetworkRemoveOutcome.cancelled
  else NetworkRemoveOutcome.bridgeCall "remove_network" network.id

/-- Outcome of NetworkRow.handleDeleteClick (modal variant). -/
inductive DeleteClickOutcome where
  | rejected (message : String)
  | deleteRequested (networkId : String)
deriving DecidableEq, Repr

/-- NetworkRow.handleDeleteClick: reject reserved system networks with a local
message, otherwise hand the network to the delete-confirmation modal. -/
def networkHandleDeleteClick (network : NetworkInfo) : DeleteClickOutcome :=
  if network.name ∈ reservedNetworkNames then
    DeleteClickOutcome.rejected "Cannot remove system networks (bridge, host, none)"
  else DeleteClickOutcome.deleteRequested network.id

/- ## Container removal parameters (ContainerRow.handleRemove / handleAction) -/

/-- Parameters of the remove_container bridge call. -/
structure RemoveContainerParams where
  containerId : String
  force : Bool
deriving DecidableEq, Repr

/-- Parameters built by ContainerRow.handleRemove: force removal exactly when
the lowercased container state is running. -/
def containerRemoveParams (container : ContainerInfo) : RemoveContainerParams :=
  { containerId := container.id
    force := strToLower container.state == "running" }

/-- ContainerRow.handleAction remove branch of the confirm-dialog variant: a
declined confirmation issues no call, a confirmed one issues the same
parameters as handleRemove. -/
def handleActionRemove (container : ContainerInfo) (confirmed : Bool) :
    Option RemoveContainerParams :=
  if !confirmed then none else some (containerRemoveParams container)

/- ## Column resize (useColumnResize.handleMouseMove) -/

/-- Resizable column configuration from useColumnResize. -/
structure ResizableColumnConfig where
  id : String
  label : String
  visible : Bool
  width : Int
  minWidth : Int
  maxWidth : Int
deriving DecidableEq, Repr

/-- JS truthy fallback v or-else dflt for numbers: 0 is falsy. -/
def jsOrDefault (v dflt : Int) : Int :=
  if v = 0 then dflt else v

/-- Lookup columns.find of the column being resized. -/
def findColumn (columns : List ResizableColumnConfig) (columnId : String) :
    Option ResizableColumnConfig :=
  columns.find? (fun c => c.id == columnId)

/-- Upper width bound used by handleMouseMove, with the JS fallback 400. -/
def resizeMaxWidth (columns : List ResizableColumnConfig) (columnId : String) : Int :=
  match findColumn columns columnId with
  | some c => jsOrDefault c.maxWidth 400
  | none => 400

/-- Lower width bound used by handleMouseMove, with the JS fallback 80. -/
def resizeMinWidth (columns : List ResizableColumnConfig) (columnId : String) : Int :=
  match findColumn columns columnId with
  | some c => jsOrDefault c.minWidth 80
  | none => 80

/-- New width computed by handleMouseMove from the drag start width and the
mouse delta: the proposed width clamped by min then max. -/
def resizeNewWidth (columns : List ResizableColumnConfig) (columnId : String)
    (startWidth diff : Int) : Int :=
  max (min (startWidth + diff) (resizeMaxWidth columns columnId))
    (resizeMinWidth columns columnId)

/-- useColumnResize.handleMouseMove: update the width of the column being
resized, leaving every other column untouched. -/
def handleMouseMove (columns : List ResizableColumnConfig) (columnId : String)
    (startWidth diff : Int) : List ResizableColumnConfig :=
  columns.map (fun c =>
    if c.id == columnId then { c with width := resizeNewWidth columns columnId startWidth diff }
    else c)

/- ## Terminal session model (multi-tab Terminal component) -/

/-- Last n elements of a list in order, as JS slice(-n). -/
def takeLast {α : Type} (n : Nat) (l : List α) : List α :=
  (l.reverse.take n).reverse

/-- History-relevant fields of one TerminalSession: the working directory, the
bounded command history and the Up/Down navigation cursor (-1 means no history
entry selected). -/
structure TerminalSessionModel where
  currentDirectory : String
  commandHistory : List String
  historyIndex : Int
deriving DecidableEq, Repr

/-- Session created by createNewSession: empty history, cursor at -1. -/
def newTerminalSession (directory : String) : TerminalSessionModel :=
  { currentDirectory := directory, commandHistory := [], historyIndex := -1 }

/-- History append performed by executeCommand before dispatching: push the
command and keep the last 100 entries, resetting the cursor. -/
def appendHistory (history : List String) (command : String) : List String :=
  takeLast 100 (history ++ [command])

/-- History effect of executeCommand on the active session: a command whose
trim is empty returns early and changes nothing; otherwise the command is
appended to the bounded history and the cursor resets to -1. -/
def execHistoryStep (s : TerminalSessionModel) (command : String) : TerminalSessionModel :=
  if jsTrim command = "" then s
  else { s with commandHistory := appendHistory s.commandHistory command, historyIndex := -1 }

/-- History effect of executing a sequence of commands in one session. -/
def runCommands (s : TerminalSessionModel) (commands : List String) : TerminalSessionModel :=
  commands.foldl execHistoryStep s

/-- handleKeyDown ArrowUp branch: with a non-empty history, move the cursor to
the newest entry if none is selected, else one entry older (clamped at the
oldest), and show that entry in the input field. Returns the new session state
and the command placed into the input field, if any. -/
def arrowUpStep (s : TerminalSessionModel) : TerminalSessionModel × Option String :=
  if s.commandHistory.length = 0 then (s, none)
  else
    let newIndex : Int :=
      if s.historyIndex = -1 then (s.commandHistory.length : Int) - 1
      else max 0 (s.historyIndex - 1)
    ({ s with historyIndex := newIndex }, s.commandHistory[newIndex.toNat]?)

/-- Session state after k ArrowUp presses. -/
def arrowUpIter (s : TerminalSessionModel) : Nat → TerminalSessionModel
  | 0 => s
  | k + 1 => (arrowUpStep (arrowUpIter s k)).1

/-- Dispatch decision taken by executeCommand for one input line. -/
inductive TerminalDispatch where
  | ignored
  | localCdError (message : String)
  | changeDirCall (path : String)
  | pwdLocal (output : String)
  | clearLocal
  | dockerCall (args : List String)
  | execCall (command : String)
deriving DecidableEq, Repr

/-- Argument vector of execute_docker_command: the input after the docker
keyword, trimmed and split on whitespace runs. -/
def dockerArgs (command : String) : List String :=
  (((jsTrim (strDropLeft command 7)).data.splitOnP jsWhitespaceChar).filter
    (fun w => w ≠ [])).map String.mk

/-- executeCommand dispatch logic of the Terminal component: blank input is
ignored; input starting with the three characters c, d, space is the built-in
cd (with a local missing-argument error when the rest trims to nothing); pwd
and clear are handled locally; a docker prefix goes to
execute_docker_command; everything else goes verbatim to execute_command. -/
def executeCommandDispatch (currentDirectory : String) (command : String) : TerminalDispatch :=
  if jsTrim command = "" then TerminalDispatch.ignored
  else if strStartsWith command "cd " = true then
    if jsTrim (strDropLeft command 3) = "" then
      TerminalDispatch.localCdError "cd: missing path argument"
    else TerminalDispatch.changeDirCall (jsTrim (strDropLeft command 3))
  else if command = "pwd" then TerminalDispatch.pwdLocal currentDirectory
  else if command = "clear" then TerminalDispatch.clearLocal
  else if strStartsWith command "docker " = true then TerminalDispatch.dockerCall (dockerArgs command)
  else TerminalDispatch.execCall command

/- ## Lemmas about takeLast and the bounded history -/

theorem takeLast_nil {α : Type} (n : Nat) : takeLast n ([] : List α) = [] := by
  simp [takeLast]

theorem takeLast_append_absorb {α : Type} (n : Nat) (l l₂ : List α) :
    takeLast n (takeLast n l ++ l₂) = takeLast n (l ++ l₂) := by
  unfold takeLast
  rw [List.reverse_append, List.reverse_reverse, List.reverse_append]
  congr 1
  rw [List.take_append_eq_append_take, List.take_append_eq_append_take, List.take_take]
  have hmin : (n - l₂.reverse.length) ⊓ n = n - l₂.reverse.length := by omega
  rw [hmin]

theorem foldl_appendHistory (commands : List String) :
    ∀ l : List String, commands.foldl appendHistory (takeLast 100 l) =
      takeLast 100 (l ++ commands) := by
  induction commands with
  | nil => intro l; simp
  | cons c cs ih =>
    intro l
    rw [List.foldl_cons]
    have hstep : appendHistory (takeLast 100 l) c = takeLast 100 (l ++ [c]) := by
      unfold appendHistory
      exact takeLast_append_absorb 100 l [c]
    rw [hstep, ih (l ++ [c])]
    simp

theorem takeLast_eq_drop {α : Type} : ∀ (l : List α) (n : Nat),
    takeLast n l = l.drop (l.length - n) := by
  intro l
  induction l with
  | nil => intro n; simp [takeLast]
  | cons a l ih =>
    intro n
    obtain h | h := le_or_lt (l.length + 1) n
    · unfold takeLast
      rw [List.take_of_length_le (by simpa using h), List.reverse_reverse]
      have h0 : (a :: l).length - n = 0 := by
        simp only [List.length_cons]
        omega
      rw [h0]
      rfl
    · have hlen : n ≤ l.reverse.length := by
        simp only [List.length_reverse]
        omega
      unfold takeLast
      rw [List.reverse_cons, List.take_append_of_le_length hlen]
      have hd : (a :: l).length - n = (l.length - n) + 1 := by
        simp only [List.length_cons]
        omega
      rw [hd, List.drop_succ_cons]
      have hrec := ih n
      unfold takeLast at hrec
      exact hrec

theorem takeLast_length {α : Type} (n : Nat) (l : List α) :
    (takeLast n l).length = min n l.length := by
  unfold takeLast
  simp

theorem runCommands_history (commands : List String)
    (hall : ∀ c ∈ commands, jsTrim c ≠ "") :
    ∀ s : TerminalSessionModel,
      (runCommands s commands).commandHistory = commands.foldl appendHistory s.commandHistory ∧
      (runCommands s commands).historyIndex =
        (if commands.isEmpty then s.historyIndex else -1) ∧
      (runCommands s commands).currentDirectory = s.currentDirectory := by
  induction commands with
  | nil => intro s; simp [runCommands]
  | cons c cs ih =>
    intro s
    have hc : jsTrim c ≠ "" := hall c (List.mem_cons_self c cs)
    have hall2 : ∀ d ∈ cs, jsTrim d ≠ "" := fun d hd => hall d (List.mem_cons_of_mem c hd)
    have hstep : execHistoryStep s c =
        { s with commandHistory := appendHistory s.commandHistory c, historyIndex := -1 } := by
      unfold execHistoryStep
      rw [if_neg hc]
    have ih2 := ih hall2 (execHistoryStep s c)
    unfold runCommands at ih2 ⊢
    rw [List.foldl_cons, List.foldl_cons]
    refine ⟨?_, ?_, ?_⟩
    · rw [ih2.1, hstep]
    · rw [ih2.2.1, hstep]
      cases cs <;> simp
    · rw [ih2.2.2, hstep]

/- ## Supporting lemmas for the claims -/

theorem foldl_add_containers (l : List ContainerProject) :
    ∀ n : Nat, l.foldl (fun sum project => sum + project.containers.length) n =
      n + (l.map (fun project => project.containers.length)).sum := by
  induction l with
  | nil => intro n; simp
  | cons P l ih =>
    intro n
    rw [List.foldl_cons, ih]
    simp
    omega

theorem totalFilteredContainers_eq_length (projects : List ContainerProject)
    (containers : List ContainerInfo) (searchTerm : String) (showOnlyRunning : Bool) :
    totalFilteredContainers projects containers searchTerm showOnlyRunning =
      (containerSelectAllIds projects containers searchTerm showOnlyRunning).length := by
  unfold totalFilteredContainers containerSelectAllIds
  rw [List.length_append, List.length_flatMap, foldl_add_containers, List.length_map]
  simp [Function.comp_def]

theorem sizeChecked_iff (sel : Finset String) (ids : List String)
    (hnd : ids.Nodup) (hsub : ∀ x ∈ sel, x ∈ ids) :
    ((decide (0 < sel.card) && decide (sel.card = ids.length)) = true) ↔
      (sel.Nonempty ∧ sel = ids.toFinset) := by
  rw [Bool.and_eq_true, decide_eq_true_iff, decide_eq_true_iff]
  constructor
  · rintro ⟨hpos, hcard⟩
    have hsub2 : sel ⊆ ids.toFinset := fun x hx => List.mem_toFinset.mpr (hsub x hx)
    have hcard2 : ids.toFinset.card ≤ sel.card := by
      rw [List.toFinset_card_of_nodup hnd, ← hcard]
    exact ⟨Finset.card_pos.mp hpos, Finset.eq_of_subset_of_card_le hsub2 hcard2⟩
  · rintro ⟨hne, rfl⟩
    exact ⟨Finset.card_pos.mpr hne, by rw [List.toFinset_card_of_nodup hnd]⟩

theorem arrowUpIter_spec (s : TerminalSessionModel) (hidx : s.historyIndex = -1) :
    ∀ k : Nat, 1 ≤ k → k ≤ s.commandHistory.length →
      (arrowUpIter s k).commandHistory = s.commandHistory ∧
      (arrowUpIter s k).currentDirectory = s.currentDirectory ∧
      (arrowUpIter s k).historyIndex = (s.commandHistory.length : Int) - k := by
  intro k
  induction k with
  | zero => intro h; omega
  | succ k ih =>
    intro _ hk
    by_cases hk0 : k = 0
    · subst hk0
      have hne : ¬ s.commandHistory.length = 0 := by omega
      have hnil : s.commandHistory ≠ [] := by
        intro hn
        rw [hn] at hne
        exact hne rfl
      refine ⟨?_, ?_, ?_⟩ <;>
        simp [arrowUpIter, arrowUpStep, hidx, hne, hnil]
    · have hk1 : 1 ≤ k := by omega
      have hk2 : k ≤ s.commandHistory.length := by omega
      obtain ⟨hh, hd, hi⟩ := ih hk1 hk2
      have hne : ¬ (arrowUpIter s k).commandHistory.length = 0 := by
        rw [hh]; omega
      have hne2 : ¬ (arrowUpIter s k).historyIndex = -1 := by
        rw [hi]; omega
      simp only [arrowUpIter, arrowUpStep, if_neg hne, if_neg hne2]
      refine ⟨hh, hd, ?_⟩
      rw [hi]
      omega

theorem arrowUpShown_spec (s : TerminalSessionModel) (hidx : s.historyIndex = -1)
    (k : Nat) (hk1 : 1 ≤ k) (hk : k ≤ s.commandHistory.length) :
    (arrowUpStep (arrowUpIter s (k - 1))).2 =
      s.commandHistory[s.commandHistory.length - k]? := by
  by_cases hk0 : k = 1
  · subst hk0
    have hne : ¬ s.commandHistory.length = 0 := by omega
    simp only [arrowUpIter, arrowUpStep, if_neg hne, hidx, if_pos]
    congr 1
    omega
  · have hk1b : 1 ≤ k - 1 := by omega
    have hk2b : k - 1 ≤ s.commandHistory.length := by omega
    obtain ⟨hh, _, hi⟩ := arrowUpIter_spec s hidx (k - 1) hk1b hk2b
    have hne : ¬ (arrowUpIter s (k - 1)).commandHistory.length = 0 := by
      rw [hh]; omega
    have hne2 : ¬ (arrowUpIter s (k - 1)).historyIndex = -1 := by
      rw [hi]; omega
    simp only [arrowUpStep, if_neg hne, if_neg hne2]
    rw [hh, hi]
    congr 1
    omega

theorem jsTrim_ne_empty {s : String} {c : Char} {t : List Char} (hdata : s.data = c :: t)
    (hc : jsWhitespaceChar c = false) : jsTrim s ≠ "" := by
  unfold jsTrim
  rw [hdata]
  intro h
  have hdata2 :
      (((c :: t).dropWhile jsWhitespaceChar).reverse.dropWhile jsWhitespaceChar).reverse =
        [] := congrArg String.data h
  rw [List.dropWhile_cons] at hdata2
  rw [if_neg (by simp [hc])] at hdata2
  rw [List.reverse_eq_nil_iff] at hdata2
  rw [List.dropWhile_eq_nil_iff] at hdata2
  have := hdata2 c (by simp)
  rw [hc] at this
  exact Bool.false_ne_true this

theorem mem_rendered_containers (cs : List ContainerInfo) (searchTerm : String)
    (showOnlyRunning : Bool) (c : ContainerInfo) :
    c ∈ (filteredProjects (groupContainersByProject cs) searchTerm showOnlyRunning).flatMap
          (fun project => project.containers) ↔
      c.project.isSome = true ∧ c ∈ cs ∧
        containerPassesFilters searchTerm showOnlyRunning c = true := by
  rw [List.mem_flatMap]
  constructor
  · rintro ⟨P, hP, hc⟩
    unfold filteredProjects at hP
    rw [List.mem_filter] at hP
    obtain ⟨hP1, _⟩ := hP
    rw [List.mem_map] at hP1
    obtain ⟨Q, hQ, rfl⟩ := hP1
    rw [List.mem_filter] at hc
    obtain ⟨hcQ, hpass⟩ := hc
    rw [mem_groupContainersByProject] at hQ
    obtain ⟨p, _, rfl⟩ := hQ
    rw [(List.perm_insertionSort containerNameLe _).mem_iff] at hcQ
    unfold projectMembers at hcQ
    rw [List.mem_filter] at hcQ
    obtain ⟨hcs, hproj⟩ := hcQ
    have hproj2 : c.project = some p := by simpa using hproj
    exact ⟨by rw [hproj2]; rfl, hcs, hpass⟩
  · rintro ⟨hsome, hcs, hpass⟩
    obtain ⟨p, hp⟩ := Option.isSome_iff_exists.mp hsome
    have hcmem : c ∈ (List.insertionSort containerNameLe (projectMembers cs p)).filter
        (containerPassesFilters searchTerm showOnlyRunning) := by
      rw [List.mem_filter, (List.perm_insertionSort containerNameLe _).mem_iff]
      refine ⟨?_, hpass⟩
      unfold projectMembers
      rw [List.mem_filter]
      exact ⟨hcs, by simp [hp]⟩
    refine ⟨{ name := p
              containers := (List.insertionSort containerNameLe (projectMembers cs p)).filter
                (containerPassesFilters searchTerm showOnlyRunning)
              isExpanded := true
              isSelected := false }, ?_, hcmem⟩
    unfold filteredProjects
    rw [List.mem_filter]
    constructor
    · rw [List.mem_map]
      refine ⟨{ name := p
                containers := List.insertionSort containerNameLe (projectMembers cs p)
                isExpanded := true
                isSelected := false },
        mem_groupContainersByProject.mpr ⟨p, mem_projectNames.mpr ⟨c, hcs, hp⟩, rfl⟩, rfl⟩
    · simpa using List.length_pos_of_mem hcmem

/- ## Claim theorems -/

/-- C2: for every resource kind, a failed list load records the error message
and leaves the previously loaded collection (and, for containers, the derived
project groups) unchanged, while a subsequent successful load replaces the
entire collection and clears the error. -/
theorem c2_load_failure_preserves_collection {α : Type}
    (s : ResourceListState α) (sc : ContainerListState)
    (e : String) (items : List α) (citems : List ContainerInfo) :
    (applyLoadResult s (Except.error e)).collection = s.collection ∧
    (applyLoadResult s (Except.error e)).error = some e ∧
    applyLoadResult s (Except.ok items) = { collection := items, error := none } ∧
    applyLoadResult (applyLoadResult s (Except.error e)) (Except.ok items) =
      { collection := items, error := none } ∧
    (applyLoadContainers sc (Except.error e)).containers = sc.containers ∧
    (applyLoadContainers sc (Except.error e)).projects = sc.projects ∧
    (applyLoadContainers sc (Except.error e)).error = some e ∧
    applyLoadContainers (applyLoadContainers sc (Except.error e)) (Except.ok citems) =
      { containers := citems, projects := groupContainersByProject citems, error := none } :=
  ⟨rfl, rfl, rfl, rfl, rfl, rfl, rfl, rfl⟩

/-- C3: requesting removal of a network bearing one of the reserved names
bridge, host, none is rejected locally with a descriptive message, before the
confirmation step and without any bridge call, in both NetworkRow variants. -/
theorem c3_reserved_network_rejected (network : NetworkInfo) (confirmed : Bool)
    (h : network.name ∈ reservedNetworkNames) :
    networkHandleRemove network confirmed =
      NetworkRemoveOutcome.rejected "Cannot remove system networks (bridge, host, none)" ∧
    networkHandleDeleteClick network =
      DeleteClickOutcome.rejected "Cannot remove system networks (bridge, host, none)" ∧
    (∀ cmd nid, networkHandleRemove network confirmed ≠
      NetworkRemoveOutcome.bridgeCall cmd nid) ∧
    (∀ nid, networkHandleDeleteClick network ≠ DeleteClickOutcome.deleteRequested nid) := by
  unfold networkHandleRemove networkHandleDeleteClick
  rw [if_pos h, if_pos h]
  exact ⟨rfl, rfl, fun cmd nid => by simp, fun nid => by simp⟩

/-- C3 witness: the bridge network is rejected with the exact local message
regardless of the confirmation answer. -/
theorem c3_reserved_network_rejected_witness :
    networkHandleRemove
      { id := "n1", name := "bridge", driver := "bridge", scope := "local",
        internal := false, attachable := false } true =
      NetworkRemoveOutcome.rejected "Cannot remove system networks (bridge, host, none)" :=
  (c3_reserved_network_rejected
    { id := "n1", name := "bridge", driver := "bridge", scope := "local",
      internal := false, attachable := false } true (by decide)).1

/-- C9: confirming a container removal issues remove_container with the force
flag set exactly when the lowercased container state is running, in both the
modal variant (handleRemove) and the confirm-dialog variant (handleAction). -/
theorem c9_remove_force_iff_running (container : ContainerInfo) :
    ((containerRemoveParams container).force = true ↔
      strToLower container.state = "running") ∧
    (containerRemoveParams container).containerId = container.id ∧
    handleActionRemove container true = some (containerRemoveParams container) ∧
    handleActionRemove container false = none := by
  refine ⟨?_, rfl, rfl, rfl⟩
  unfold containerRemoveParams
  simp

/-- Container used in the concrete expansion-reset scenario. -/
def demoProjectContainer : ContainerInfo :=
  { id := "abc123", name := "web", image := "nginx", status := "Up 5 minutes"
    state := "running", created := 0, ports := [], project := some "myapp", service := none }

/-- C5: evaluation of the code at the failing input. Loading one container of
project myapp, collapsing the myapp group, then refreshing with the identical
container list re-expands the group: groupContainersByProject rebuilds every
group with isExpanded set to true and loadContainers replaces the projects
state wholesale, so the user-toggled collapsed state does not survive the
refresh even though the group name persists. -/
theorem c5_refresh_resets_expansion :
    ((toggleProjectExpansion
        (applyLoadContainers { containers := [], projects := [], error := none }
          (Except.ok [demoProjectContainer])) "myapp").projects.map
      (fun project => (project.name, project.isExpanded)) = [("myapp", false)]) ∧
    ((applyLoadContainers
        (toggleProjectExpansion
          (applyLoadContainers { containers := [], projects := [], error := none }
            (Except.ok [demoProjectContainer])) "myapp")
        (Except.ok [demoProjectContainer])).projects.map
      (fun project => (project.name, project.isExpanded)) = [("myapp", true)]) := by
  decide

/-- C8: during a column resize drag the resized column's width becomes the
proposed width (start width plus mouse delta) clamped to that column's own
minWidth and maxWidth bounds, and every other column keeps its place and its
configuration unchanged. -/
theorem c8_column_resize (columns : List ResizableColumnConfig) (columnId : String)
    (startWidth diff : Int) (c : ResizableColumnConfig)
    (hfind : findColumn columns columnId = some c)
    (hminpos : c.minWidth ≠ 0) (hmaxpos : c.maxWidth ≠ 0)
    (hbounds : c.minWidth ≤ c.maxWidth) :
    handleMouseMove columns columnId startWidth diff =
      columns.map (fun d =>
        if d.id == columnId then
          { d with width := max c.minWidth (min c.maxWidth (startWidth + diff)) }
        else d) ∧
    c.minWidth ≤ resizeNewWidth columns columnId startWidth diff ∧
    resizeNewWidth columns columnId startWidth diff ≤ c.maxWidth ∧
    (c.minWidth ≤ startWidth + diff → startWidth + diff ≤ c.maxWidth →
      resizeNewWidth columns columnId startWidth diff = startWidth + diff) ∧
    (∀ (i : Nat) (d : ResizableColumnConfig), columns[i]? = some d →
      (d.id == columnId) = false →
      (handleMouseMove columns columnId startWidth diff)[i]? = some d) := by
  have hmax : resizeMaxWidth columns columnId = c.maxWidth := by
    simp [resizeMaxWidth, hfind, jsOrDefault, hmaxpos]
  have hmin : resizeMinWidth columns columnId = c.minWidth := by
    simp [resizeMinWidth, hfind, jsOrDefault, hminpos]
  have hnew : resizeNewWidth columns columnId startWidth diff =
      max c.minWidth (min c.maxWidth (startWidth + diff)) := by
    unfold resizeNewWidth
    rw [hmax, hmin, max_comm, min_comm]
  refine ⟨?_, ?_, ?_, ?_, ?_⟩
  · simp only [handleMouseMove, hnew]
  · rw [hnew]; omega
  · rw [hnew]; omega
  · intro h1 h2; rw [hnew]; omega
  · intro i d hget hid
    simp only [handleMouseMove]
    rw [List.getElem?_map, hget]
    simp [hid]
    intro h
    exact absurd h (by simpa using hid)

/-- C8 witness: resizing the volume name column (bounds 120 to 400, start
width 200) by a drag of 500 pixels clamps the new width to 400 and leaves the
created column untouched. -/
theorem c8_column_resize_witness :
    handleMouseMove
      [{ id := "name", label := "Name", visible := true,
         width := 200, minWidth := 120, maxWidth := 400 },
       { id := "created", label := "Created", visible := true,
         width := 150, minWidth := 100, maxWidth := 250 }] "name" 200 500 =
      [{ id := "name", label := "Name", visible := true,
         width := 400, minWidth := 120, maxWidth := 400 },
       { id := "created", label := "Created", visible := true,
         width := 150, minWidth := 100, maxWidth := 250 }] := by
  have h := c8_column_resize
    [{ id := "name", label := "Name", visible := true,
       width := 200, minWidth := 120, maxWidth := 400 },
     { id := "created", label := "Created", visible := true,
       width := 150, minWidth := 100, maxWidth := 250 }] "name" 200 500
    { id := "name", label := "Name", visible := true,
      width := 200, minWidth := 120, maxWidth := 400 }
    (by decide) (by decide) (by decide) (by decide)
  rw [h.1]
  decide

/-- Volume fixtures for the header checkbox scenarios. -/
def demoVolumeA : VolumeInfo :=
  { name := "alpha", driver := "local", mountpoint := "/var/a", created_at := none
    scope := "local" }

/-- Second volume fixture. -/
def demoVolumeB : VolumeInfo :=
  { name := "beta", driver := "local", mountpoint := "/var/b", created_at := none
    scope := "local" }

/-- C1 counterexample: the header checkbox state diverges from the claimed
tri-state law. With volumes alpha and beta, selection containing only alpha
and filter string beta, the checkbox renders checked although the selection
differs from the filtered id set (the hidden selected volume counts toward
all-selected, because the code only compares sizes). With an empty filter the
same non-empty proper selection renders unchecked rather than indeterminate:
the header checkbox never sets the indeterminate property. -/
theorem c1_header_checkbox_counterexample :
    (volumeHeaderChecked {"alpha"} [demoVolumeA, demoVolumeB] "beta" = true ∧
      ¬ (({"alpha"} : Finset String) =
        ((filteredVolumes [demoVolumeA, demoVolumeB] "beta").map
          (fun v => v.name)).toFinset)) ∧
    (volumeHeaderChecked {"alpha"} [demoVolumeA, demoVolumeB] "" = false ∧
      ({"alpha"} : Finset String).Nonempty) := by
  decide

/-- C1 (amended): the header select-all checkbox is checked iff the selection
is non-empty and its size equals the filtered row count; whenever every
selected id currently belongs to the filtered id set this coincides with the
claimed set equality (checked iff the selection equals the full filtered id
set, unchecked otherwise). Without that containment a stale selection of the
right size can render the checkbox checked, and the header checkbox is
two-state: it never renders indeterminate. Both the VolumeList and the
ContainerList headers satisfy this law. -/
theorem c1_header_checkbox_amended :
    (∀ (selectedVolumes : Finset String) (volumes : List VolumeInfo) (searchTerm : String),
      ((filteredVolumes volumes searchTerm).map (fun v => v.name)).Nodup →
      (∀ x ∈ selectedVolumes, x ∈ (filteredVolumes volumes searchTerm).map (fun v => v.name)) →
      (volumeHeaderChecked selectedVolumes volumes searchTerm = true ↔
        selectedVolumes.Nonempty ∧
        selectedVolumes =
          ((filteredVolumes volumes searchTerm).map (fun v => v.name)).toFinset)) ∧
    (∀ (selectedContainers : Finset String) (projects : List ContainerProject)
        (containers : List ContainerInfo) (searchTerm : String) (showOnlyRunning : Bool),
      (containerSelectAllIds projects containers searchTerm showOnlyRunning).Nodup →
      (∀ x ∈ selectedContainers,
        x ∈ containerSelectAllIds projects containers searchTerm showOnlyRunning) →
      (containerHeaderChecked selectedContainers projects containers searchTerm showOnlyRunning
          = true ↔
        selectedContainers.Nonempty ∧
        selectedContainers =
          (containerSelectAllIds projects containers searchTerm showOnlyRunning).toFinset)) := by
  constructor
  · intro sel volumes t hnd hsub
    have h := sizeChecked_iff sel ((filteredVolumes volumes t).map (fun v => v.name)) hnd hsub
    rw [List.length_map] at h
    exact h
  · intro sel projects cs t sor hnd hsub
    have h := sizeChecked_iff sel (containerSelectAllIds projects cs t sor) hnd hsub
    rw [← totalFilteredContainers_eq_length] at h
    exact h

/-- C1 witness: with selection beta and filter beta the amended law evaluates
at a concrete state. -/
theorem c1_header_checkbox_witness :
    volumeHeaderChecked {"beta"} [demoVolumeA, demoVolumeB] "beta" = true ↔
      ({"beta"} : Finset String).Nonempty ∧
      ({"beta"} : Finset String) =
        ((filteredVolumes [demoVolumeA, demoVolumeB] "beta").map
          (fun v => v.name)).toFinset :=
  c1_header_checkbox_amended.1 {"beta"} [demoVolumeA, demoVolumeB] "beta"
    (by decide) (by decide)

/-- Image fixture with a resolved tag that does not contain the probe filter
string. -/
def demoImage : ImageInfo :=
  { id := "sha256:abc", repo_tags := ["foo:latest"], created := 0, size := 10
    virtual_size := 10 }

/-- C4 counterexample: the image list performs no filtering at all. With one
image whose resolved tag and id do not contain the filter string zzz, the
claim demands an empty filtered set, but the rendered image set is the full
collection: the ImageList search input has no value binding and no change
handler. -/
theorem c4_filter_counterexample :
    imageListRendered [demoImage] "zzz" = [demoImage] ∧
    imageFilteredSpec [demoImage] "zzz" = [] ∧
    imageListRendered [demoImage] "zzz" ≠ imageFilteredSpec [demoImage] "zzz" := by
  refine ⟨rfl, by decide, by decide⟩

/-- C4 (amended): for containers, volumes and networks the filtered set is
exactly the subset of the loaded collection whose designated match fields
(container: name, image, id; volume: name; network: name, id) contain the
filter string case-insensitively, and filtering is a pure projection that
leaves the underlying collection untouched; the image list however ignores
the search text entirely and always renders the full collection. -/
theorem c4_filter_amended :
    (∀ (volumes : List VolumeInfo) (searchTerm : String) (v : VolumeInfo),
      v ∈ filteredVolumes volumes searchTerm ↔
        v ∈ volumes ∧ volumeMatchesSearch searchTerm v = true) ∧
    (∀ (networks : List NetworkInfo) (searchTerm : String) (n : NetworkInfo),
      n ∈ filteredNetworks networks searchTerm ↔
        n ∈ networks ∧ networkMatchesSearch searchTerm n = true) ∧
    (∀ (containers : List ContainerInfo) (searchTerm : String) (c : ContainerInfo),
      c ∈ (filteredProjects (groupContainersByProject containers) searchTerm false).flatMap
          (fun project => project.containers) ++
          individualContainers containers searchTerm false ↔
        c ∈ containers ∧ containerMatchesSearch searchTerm c = true) ∧
    (∀ (images : List ImageInfo) (searchText : String),
      imageListRendered images searchText = images) := by
  refine ⟨?_, ?_, ?_, fun images searchText => rfl⟩
  · intro volumes t v
    simp [filteredVolumes, List.mem_filter]
  · intro networks t n
    simp [filteredNetworks, List.mem_filter]
  · intro cs t c
    rw [List.mem_append, mem_rendered_containers]
    unfold individualContainers
    rw [List.mem_filter]
    have hpass : containerPassesFilters t false c = containerMatchesSearch t c := by
      unfold containerPassesFilters
      simp
    constructor
    · rintro (⟨_, hcs, hp⟩ | ⟨hcs, hind⟩)
      · rw [hpass] at hp
        exact ⟨hcs, hp⟩
      · rw [Bool.and_eq_true, hpass] at hind
        exact ⟨hcs, hind.2⟩
    · rintro ⟨hcs, hmatch⟩
      cases hproj : c.project with
      | none =>
        right
        refine ⟨hcs, ?_⟩
        rw [Bool.and_eq_true, hpass]
        exact ⟨by simp [hproj], hmatch⟩
      | some p =>
        left
        exact ⟨by simp [hproj], hcs, by rw [hpass]; exact hmatch⟩

/-- Container fixtures: two containers of the same project with equal names
and distinct ids. -/
def demoTwinA : ContainerInfo :=
  { id := "1", name := "web", image := "nginx", status := "", state := "running"
    created := 0, ports := [], project := some "p", service := none }

/-- Second twin container. -/
def demoTwinB : ContainerInfo :=
  { id := "2", name := "web", image := "nginx", status := "", state := "running"
    created := 0, ports := [], project := some "p", service := none }

/-- C6 counterexample: grouping is not order-independent as claimed. The two
twin containers share a project and a name; the within-group sort is stable,
so the two orders of the same flat collection produce groups whose container
lists differ. -/
theorem c6_grouping_counterexample :
    List.Perm [demoTwinA, demoTwinB] [demoTwinB, demoTwinA] ∧
    groupContainersByProject [demoTwinA, demoTwinB] ≠
      groupContainersByProject [demoTwinB, demoTwinA] := by
  refine ⟨List.Perm.swap demoTwinB demoTwinA [], by decide⟩

/-- C6 (amended): grouping the same flat collection is deterministic and, as
long as the containers inside each project group have pairwise distinct
names, order-independent: any permutation of the input yields identical
groups in identical order (ties between equal names are broken by input
order, which is what the counterexample exploits). Groups are sorted by group
name, containers within a group are sorted by container name, and a container
placed in a group always carries that group's project key, so containers
lacking a project are never placed in any group. -/
theorem c6_grouping_amended :
    (∀ (xs ys : List ContainerInfo), List.Perm xs ys →
      (∀ p ∈ projectNames xs, ((projectMembers xs p).map (fun c => c.name)).Nodup) →
      groupContainersByProject xs = groupContainersByProject ys) ∧
    (∀ containers : List ContainerInfo,
      (groupContainersByProject containers).Pairwise projectLe ∧
      ∀ G ∈ groupContainersByProject containers,
        G.containers.Pairwise containerNameLe ∧
        ∀ c ∈ G.containers, c.project = some G.name) := by
  constructor
  · intro xs ys hperm hnod
    have hmem_eq : ∀ p ∈ projectNames ys,
        List.insertionSort containerNameLe (projectMembers xs p) =
          List.insertionSort containerNameLe (projectMembers ys p) := by
      intro p hp
      have hpx : p ∈ projectNames xs := by
        rw [mem_projectNames] at hp ⊢
        obtain ⟨c, hc, hcp⟩ := hp
        exact ⟨c, hperm.mem_iff.mpr hc, hcp⟩
      refine insertionSort_key_eq (fun c => c.name) containerNameLe
        containerNameLe_iff ?_ (hnod p hpx)
      unfold projectMembers
      exact hperm.filter _
    unfold groupContainersByProject
    refine insertionSort_key_eq (fun G => G.name) projectLe projectLe_iff ?_ ?_
    · have h1 := (projectNames_perm hperm).map (fun projectName =>
        ({ name := projectName
           containers := List.insertionSort containerNameLe (projectMembers xs projectName)
           isExpanded := true
           isSelected := false } : ContainerProject))
      have h2 : (projectNames ys).map (fun projectName =>
          ({ name := projectName
             containers := List.insertionSort containerNameLe (projectMembers xs projectName)
             isExpanded := true
             isSelected := false } : ContainerProject)) =
        (projectNames ys).map (fun projectName =>
          ({ name := projectName
             containers := List.insertionSort containerNameLe (projectMembers ys projectName)
             isExpanded := true
             isSelected := false } : ContainerProject)) := by
        apply List.map_congr_left
        intro p hp
        rw [hmem_eq p hp]
      rw [h2] at h1
      exact h1
    · rw [List.map_map]
      have hcomp : ((fun G : ContainerProject => G.name) ∘ (fun projectName =>
          ({ name := projectName
             containers := List.insertionSort containerNameLe (projectMembers xs projectName)
             isExpanded := true
             isSelected := false } : ContainerProject))) = fun p => p := rfl
      rw [hcomp]
      simpa using nodup_projectNames xs
  · intro cs
    constructor
    · exact List.sorted_insertionSort projectLe _
    · intro G hG
      rw [mem_groupContainersByProject] at hG
      obtain ⟨p, _, rfl⟩ := hG
      constructor
      · exact List.sorted_insertionSort containerNameLe _
      · intro c hc
        rw [(List.perm_insertionSort containerNameLe _).mem_iff] at hc
        unfold projectMembers at hc
        rw [List.mem_filter] at hc
        simpa using hc.2

/-- Container fixtures with distinct names in one project. -/
def demoWebA : ContainerInfo :=
  { id := "1", name := "api", image := "nginx", status := "", state := "running"
    created := 0, ports := [], project := some "p", service := none }

/-- Second distinct-name container fixture. -/
def demoWebB : ContainerInfo :=
  { id := "2", name := "db", image := "postgres", status := "", state := "exited"
    created := 0, ports := [], project := some "p", service := none }

/-- C6 witness: with distinct container names, both input orders group
identically. -/
theorem c6_grouping_witness :
    groupContainersByProject [demoWebA, demoWebB] =
      groupContainersByProject [demoWebB, demoWebA] :=
  c6_grouping_amended.1 [demoWebA, demoWebB] [demoWebB, demoWebA]
    (List.Perm.swap demoWebB demoWebA []) (by decide)

/-- C7: after executing more than 100 commands in a session that started
empty, the session history holds exactly the most recent 100 commands in
order, and the k-th ArrowUp press (for k from 1 to 100) moves the cursor to
position 100 - k and shows that history entry, walking from the most recent
entry to the oldest without skipping or duplicating entries. -/
theorem c7_terminal_history (directory : String) (commands : List String) (k : Nat)
    (hall : ∀ c ∈ commands, jsTrim c ≠ "") (hlen : 100 < commands.length)
    (hk1 : 1 ≤ k) (hk : k ≤ 100) :
    (runCommands (newTerminalSession directory) commands).commandHistory =
      commands.drop (commands.length - 100) ∧
    (runCommands (newTerminalSession directory) commands).commandHistory.length = 100 ∧
    (arrowUpIter (runCommands (newTerminalSession directory) commands) k).historyIndex =
      (100 : Int) - k ∧
    (arrowUpStep (arrowUpIter (runCommands (newTerminalSession directory) commands)
        (k - 1))).2 =
      (runCommands (newTerminalSession directory) commands).commandHistory[100 - k]? := by
  obtain ⟨hh, hidx, hdir⟩ := runCommands_history commands hall (newTerminalSession directory)
  have hfold : commands.foldl appendHistory ([] : List String) = takeLast 100 commands := by
    have h0 : ([] : List String) = takeLast 100 ([] : List String) := by simp [takeLast]
    rw [h0, foldl_appendHistory]
    simp
  have hhist : (runCommands (newTerminalSession directory) commands).commandHistory =
      takeLast 100 commands := by
    rw [hh]
    exact hfold
  have hlen100 : (runCommands (newTerminalSession directory) commands).commandHistory.length
      = 100 := by
    rw [hhist, takeLast_length]
    omega
  have hidx2 : (runCommands (newTerminalSession directory) commands).historyIndex = -1 := by
    rw [hidx]
    cases commands.isEmpty <;> rfl
  obtain ⟨_, _, hiter⟩ := arrowUpIter_spec (runCommands (newTerminalSession directory) commands)
    hidx2 k hk1 (by rw [hlen100]; exact hk)
  have hshown := arrowUpShown_spec (runCommands (newTerminalSession directory) commands)
    hidx2 k hk1 (by rw [hlen100]; exact hk)
  refine ⟨?_, hlen100, ?_, ?_⟩
  · rw [hhist, takeLast_eq_drop]
  · rw [hiter, hlen100]
    norm_num
  · rw [hshown, hlen100]

/-- C7 witness: after 101 executions of the command x, the history holds the
100 most recent entries and the 100th ArrowUp press reaches the oldest
retained entry at cursor position 0. -/
theorem c7_terminal_history_witness :
    (runCommands (newTerminalSession "/") (List.replicate 101 "x")).commandHistory =
      (List.replicate 101 "x").drop ((List.replicate 101 "x").length - 100) ∧
    (runCommands (newTerminalSession "/") (List.replicate 101 "x")).commandHistory.length
      = 100 ∧
    (arrowUpIter (runCommands (newTerminalSession "/") (List.replicate 101 "x"))
        100).historyIndex = (100 : Int) - 100 ∧
    (arrowUpStep (arrowUpIter (runCommands (newTerminalSession "/") (List.replicate 101 "x"))
        (100 - 1))).2 =
      (runCommands (newTerminalSession "/")
        (List.replicate 101 "x")).commandHistory[100 - 100]? :=
  c7_terminal_history "/" (List.replicate 101 "x") 100 (by decide) (by decide)
    (by decide) (by decide)

/-- C10 counterexample: the input cd followed by a tab character consists of
cd plus only whitespace, yet it is not handled locally: it is dispatched
verbatim to the bridge as an execute_command call rather than producing the
local missing-argument error the claim demands, because the built-in check
requires the literal three-character prefix c, d, space. -/
theorem c10_cd_dispatch_counterexample :
    executeCommandDispatch "/" "cd\t" = TerminalDispatch.execCall "cd\t" ∧
    "cd\t".data = ['c', 'd', '\t'] ∧
    jsWhitespaceChar '\t' = true ∧
    (∀ m, executeCommandDispatch "/" "cd\t" ≠ TerminalDispatch.localCdError m) := by
  refine ⟨by decide, rfl, rfl, ?_⟩
  intro m
  rw [show executeCommandDispatch "/" "cd\t" = TerminalDispatch.execCall "cd\t" from by decide]
  simp

/-- C10 (amended): terminal input is intercepted as the built-in cd exactly
when it begins with the three characters c, d, space; in that case a path
argument that trims to nothing yields the local missing-argument error with
no bridge call and otherwise the trimmed path is sent to change_directory.
Input not beginning with that prefix is never treated as the built-in cd: in
particular the bare input cd is dispatched verbatim to execute_command, and
cd followed by non-space whitespace such as a tab is likewise dispatched to
the bridge rather than producing the local error. -/
theorem c10_cd_dispatch_amended (currentDirectory command : String) :
    (strStartsWith command "cd " = true →
      executeCommandDispatch currentDirectory command =
        (if jsTrim (strDropLeft command 3) = "" then
          TerminalDispatch.localCdError "cd: missing path argument"
         else TerminalDispatch.changeDirCall (jsTrim (strDropLeft command 3)))) ∧
    (strStartsWith command "cd " = false →
      (∀ p, executeCommandDispatch currentDirectory command ≠
        TerminalDispatch.changeDirCall p) ∧
      (∀ m, executeCommandDispatch currentDirectory command ≠
        TerminalDispatch.localCdError m)) ∧
    executeCommandDispatch currentDirectory "cd" = TerminalDispatch.execCall "cd" := by
  refine ⟨?_, ?_, ?_⟩
  · intro hcd
    have hpre : "cd ".data <+: command.data := of_decide_eq_true hcd
    obtain ⟨t, ht⟩ := hpre
    have hdata : command.data = 'c' :: 'd' :: ' ' :: t := by
      rw [← ht]
      rfl
    have htrim : jsTrim command ≠ "" := jsTrim_ne_empty hdata (by decide)
    unfold executeCommandDispatch
    rw [if_neg htrim, if_pos hcd]
  · intro hcd
    have hni : ¬ (strStartsWith command "cd " = true) := by simp [hcd]
    constructor <;> intro x <;> unfold executeCommandDispatch <;> split_ifs <;> simp_all
  · unfold executeCommandDispatch
    rw [if_neg (by decide), if_neg (by decide), if_neg (by decide), if_neg (by decide),
      if_neg (by decide)]

/-- C10 witness: a well-formed cd command is intercepted and its trimmed path
sent to the bridge's change_directory. -/
theorem c10_cd_dispatch_witness :
    executeCommandDispatch "/" "cd /tmp" = TerminalDispatch.changeDirCall "/tmp" := by
  have h := (c10_cd_dispatch_amended "/" "cd /tmp").1 (by decide)
  rw [h]
  decide
